import Mathlib

/-!
Shallow embedding of the yb-voyager import-data engine: the change streamer
(event routing hash, per-channel batching workers, segment finalization), the
snapshot importer (batch retry loop, file splitting), the streaming stats
reporter (sliding window), and task classification.  Definitions are translated
from the Go source in `yb-voyager/cmd` and `yb-voyager/src/reporter/stats`;
configuration values that Go reads from the environment (NUM_EVENT_CHANNELS,
MAX_EVENTS_PER_BATCH, COPY_MAX_RETRY_COUNT, MAX_SLEEP_SECOND, batchSize) are
model parameters.
-/

namespace YBV

/-- Model of `tgtdb.Event` (the fields used by the import code).  The Go `Key`
field is a `map[string]*string`; it is modelled as an association list carrying
the map's iteration order explicitly.  `Vsn` is an `int64`, modelled as `Int`
(only comparisons are performed on it, so no wrap-around is involved). -/
structure Event where
  op : String
  schemaName : String
  tableName : String
  key : List (String × String)
  vsn : Int
deriving DecidableEq

/-- Target DB type constant for YugabyteDB (string constant in the Go source). -/
def YUGABYTEDB : String := "yugabytedb"

/-- Target DB type constant for Oracle (string constant in the Go source). -/
def ORACLE : String := "oracle"

/-- FNV-64a offset basis (package `hash/fnv`, `New64a`). -/
def fnvOffsetBasis : Nat := 14695981039346656037

/-- FNV-64a prime (package `hash/fnv`). -/
def fnvPrime : Nat := 1099511628211

/-- One step of FNV-64a: xor in a byte, multiply by the prime, mod 2^64. -/
def fnvWriteByte (h : Nat) (b : Nat) : Nat := ((h ^^^ b) * fnvPrime) % (2 ^ 64)

/-- UTF-8 encoding of one character, as Go produces for `[]byte(s)`. -/
def utf8Bytes (c : Char) : List Nat :=
  let n := c.toNat
  if n < 0x80 then [n]
  else if n < 0x800 then
    [0xC0 ||| (n >>> 6), 0x80 ||| (n &&& 0x3F)]
  else if n < 0x10000 then
    [0xE0 ||| (n >>> 12), 0x80 ||| ((n >>> 6) &&& 0x3F), 0x80 ||| (n &&& 0x3F)]
  else
    [0xF0 ||| (n >>> 18), 0x80 ||| ((n >>> 12) &&& 0x3F),
     0x80 ||| ((n >>> 6) &&& 0x3F), 0x80 ||| (n &&& 0x3F)]

/-- The UTF-8 bytes of a string, as Go's `[]byte(s)`. -/
def stringBytes (s : String) : List Nat := (s.data.map utf8Bytes).flatten

/-- Model of `hash.Write([]byte(s))` for the FNV-64a hash. -/
def fnvWriteString (h : Nat) (s : String) : Nat := (stringBytes s).foldl fnvWriteByte h

/-- Model of `hashEvent` (part_000:168-183): FNV-64a over schema+table, then the
key values in sorted key-column order, reduced mod NUM_EVENT_CHANNELS.
`sort.Strings` is modelled by `List.insertionSort (· ≤ ·)` (any correct sort of
the column names yields the same list). -/
def hashEvent (numEventChannels : Nat) (e : Event) : Nat :=
  let h0 := fnvWriteString fnvOffsetBasis (e.schemaName ++ e.tableName)
  let keyColumns := e.key.map Prod.fst
  let sortedColumns := List.insertionSort (fun a b => a ≤ b) keyColumns
  let h1 := sortedColumns.foldl (fun h k => fnvWriteString h ((e.key.lookup k).getD "")) h0
  h1 % numEventChannels

/-- Model of `shouldFormatValues` (part_000:145-148). -/
def shouldFormatValues (targetDBType : String) (e : Event) : Bool :=
  (targetDBType == YUGABYTEDB && e.op == "u") || targetDBType == ORACLE

/-- The observable effect of `handleEvent` (part_000:149-165): the table name and
`formatIfRequired` flag passed to `valueConverter.ConvertEvent`, and the channel
index the event is sent to. -/
structure HandleEventCall where
  tableName : String
  formatIfRequired : Bool
  channel : Nat
deriving DecidableEq

/-- Model of `handleEvent` (part_000:149-165). -/
def handleEvent (targetDBType sourceDBType : String) (numEventChannels : Nat)
    (e : Event) : HandleEventCall :=
  let tableName :=
    if sourceDBType = "postgresql" ∧ e.schemaName ≠ "public" then
      e.schemaName ++ "." ++ e.tableName
    else e.tableName
  { tableName := tableName
    formatIfRequired := shouldFormatValues targetDBType e
    channel := hashEvent numEventChannels e }

/-- One receive performed by a `processEvents` worker on its channel: an event,
a fire of the MAX_INTERVAL_BETWEEN_BATCHES timer, or the
END_OF_QUEUE_SEGMENT_EVENT sentinel (identified in Go by pointer equality). -/
inductive ChanMsg where
  | ev (e : Event)
  | timeout
  | endOfSegment
deriving DecidableEq

/-- Model of the `processEvents` worker loop (part_000:185-228).  `batch` is the
batch under construction; the returned list is the sequence of batches passed to
`tdb.ExecuteBatch`, in order.  `lastAppliedVsn` is the filter threshold the Go
code reads; the Go code never reassigns it, so it is a fixed parameter.  When
the message list ends without a sentinel the pending batch is still emitted
(in Go the timer eventually fires and a non-empty batch is executed). -/
def processEventsLoop (maxEventsPerBatch : Nat) (lastAppliedVsn : Int) :
    List ChanMsg → List Event → List (List Event)
  | [], batch => if batch = [] then [] else [batch]
  | ChanMsg.endOfSegment :: _, batch => if batch = [] then [] else [batch]
  | ChanMsg.timeout :: rest, batch =>
      if batch = [] then processEventsLoop maxEventsPerBatch lastAppliedVsn rest []
      else batch :: processEventsLoop maxEventsPerBatch lastAppliedVsn rest []
  | ChanMsg.ev e :: rest, batch =>
      if e.vsn ≤ lastAppliedVsn then
        processEventsLoop maxEventsPerBatch lastAppliedVsn rest batch
      else
        let batch' := batch ++ [e]
        if maxEventsPerBatch ≤ batch'.length then
          batch' :: processEventsLoop maxEventsPerBatch lastAppliedVsn rest []
        else
          processEventsLoop maxEventsPerBatch lastAppliedVsn rest batch'

/-- Model of `processEvents` (part_000:185-228): the worker starts with an empty
batch and the channel's last-applied VSN loaded from `event_channels_metadata`. -/
def processEvents (maxEventsPerBatch : Nat) (lastAppliedVsn : Int)
    (msgs : List ChanMsg) : List (List Event) :=
  processEventsLoop maxEventsPerBatch lastAppliedVsn msgs []

/-- Maximum VSN of a list of events (0 for the empty list; only used on
non-empty batches). -/
def maxVsn : List Event → Int
  | [] => 0
  | e :: rest => max e.vsn (maxVsn rest)

/-- Modelled from the spec: a variant of the `processEvents` worker loop that
follows the specification's words for the idempotence filter — after each
applied batch the in-memory last-applied VSN is updated to the maximum VSN of
the events in that batch.  It exists only to be compared with
`processEventsLoop`, which is translated from the Go source. -/
def processEventsSpecLoop (maxEventsPerBatch : Nat) :
    List ChanMsg → Int → List Event → List (List Event)
  | [], _, batch => if batch = [] then [] else [batch]
  | ChanMsg.endOfSegment :: _, _, batch => if batch = [] then [] else [batch]
  | ChanMsg.timeout :: rest, v, batch =>
      if batch = [] then processEventsSpecLoop maxEventsPerBatch rest v []
      else batch :: processEventsSpecLoop maxEventsPerBatch rest (maxVsn batch) []
  | ChanMsg.ev e :: rest, v, batch =>
      if e.vsn ≤ v then
        processEventsSpecLoop maxEventsPerBatch rest v batch
      else
        let batch' := batch ++ [e]
        if maxEventsPerBatch ≤ batch'.length then
          processEventsSpecLoop maxEventsPerBatch rest (maxVsn batch') []
        else
          processEventsSpecLoop maxEventsPerBatch rest v batch'

/-- Modelled from the spec: `processEvents` per the claim's wording (watermark
updated in memory from each applied batch's maximum VSN). -/
def processEventsSpec (maxEventsPerBatch : Nat) (lastAppliedVsn : Int)
    (msgs : List ChanMsg) : List (List Event) :=
  processEventsSpecLoop maxEventsPerBatch msgs lastAppliedVsn []

/-- The events a worker receives from its channel before the segment sentinel. -/
def eventsUpToSentinel : List ChanMsg → List Event
  | [] => []
  | ChanMsg.endOfSegment :: _ => []
  | ChanMsg.timeout :: rest => eventsUpToSentinel rest
  | ChanMsg.ev e :: rest => e :: eventsUpToSentinel rest

/-- One observable action of `streamChangesFromSegment` (part_000:93-143). -/
inductive SegAction where
  | sendEvent (channel : Nat) (e : Event)
  | sendSentinel (channel : Nat)
  | recvDone (channel : Nat)
  | markProcessed (segmentNum : Nat)
deriving DecidableEq

/-- Model of the action sequence of `streamChangesFromSegment`
(part_000:93-143): route every event of the segment via `handleEvent`, then
enqueue END_OF_QUEUE_SEGMENT_EVENT into each of the NUM_EVENT_CHANNELS
channels, then receive one done-signal per channel, then call
`metaDB.MarkEventQueueSegmentAsProcessed`. -/
def streamChangesFromSegment (numEventChannels : Nat) (targetDBType sourceDBType : String)
    (segmentNum : Nat) (events : List Event) : List SegAction :=
  (events.map fun e =>
    SegAction.sendEvent (handleEvent targetDBType sourceDBType numEventChannels e).channel e)
  ++ (List.range numEventChannels).map SegAction.sendSentinel
  ++ (List.range numEventChannels).map SegAction.recvDone
  ++ [SegAction.markProcessed segmentNum]

/-- Outcome of one `tdb.ImportBatch` attempt, as classified by the adapter's
`IsNonRetryableCopyError`. -/
inductive AttemptResult where
  | success
  | retryableErr
  | nonRetryableErr
deriving DecidableEq

/-- One observable action of `importBatch` (importData.go:534-569). -/
inductive BatchAction where
  | markPending
  | attempt (r : AttemptResult)
  | sleep (sec : Nat)
  | markDone
  | errExit
deriving DecidableEq

/-- Model of the retry loop of `importBatch` (importData.go:547-560).
`results i` is the outcome of the i-th `tdb.ImportBatch` call; `fuel` counts the
remaining iterations of `for attempt := 0; attempt < COPY_MAX_RETRY_COUNT`;
`sleepSec` is the current `sleepIntervalSec`; `errSoFar` records whether `err`
is non-nil when the loop condition fails. -/
def importBatchLoop (results : Nat → AttemptResult) (maxSleepSecond : Nat) :
    Nat → Nat → Nat → Bool → List BatchAction
  | 0, _, _, errSoFar => if errSoFar then [BatchAction.errExit] else [BatchAction.markDone]
  | fuel + 1, i, sleepSec, _ =>
      match results i with
      | AttemptResult.success => [BatchAction.attempt AttemptResult.success, BatchAction.markDone]
      | AttemptResult.nonRetryableErr =>
          [BatchAction.attempt AttemptResult.nonRetryableErr, BatchAction.errExit]
      | AttemptResult.retryableErr =>
          let s := min (sleepSec + 10) maxSleepSecond
          BatchAction.attempt AttemptResult.retryableErr :: BatchAction.sleep s ::
            importBatchLoop results maxSleepSecond fuel (i + 1) s true

/-- Model of `importBatch` (importData.go:534-569): `MarkPending`, then the
retry loop (ending in `MarkDone` on a nil error, `utils.ErrExit` otherwise). -/
def importBatch (results : Nat → AttemptResult) (copyMaxRetryCount maxSleepSecond : Nat) :
    List BatchAction :=
  BatchAction.markPending :: importBatchLoop results maxSleepSecond copyMaxRetryCount 0 0 false

/-- The `ImportBatch` attempt outcomes occurring in a trace, in order. -/
def attemptsIn : List BatchAction → List AttemptResult
  | [] => []
  | BatchAction.markPending :: rest => attemptsIn rest
  | BatchAction.attempt r :: rest => r :: attemptsIn rest
  | BatchAction.sleep _ :: rest => attemptsIn rest
  | BatchAction.markDone :: rest => attemptsIn rest
  | BatchAction.errExit :: rest => attemptsIn rest

/-- The sleep durations occurring in a trace, in order. -/
def sleepsIn : List BatchAction → List Nat
  | [] => []
  | BatchAction.markPending :: rest => sleepsIn rest
  | BatchAction.attempt _ :: rest => sleepsIn rest
  | BatchAction.sleep s :: rest => s :: sleepsIn rest
  | BatchAction.markDone :: rest => sleepsIn rest
  | BatchAction.errExit :: rest => sleepsIn rest

/-- Number of `ImportBatch` attempts the retry loop makes from index `i` with
`fuel` iterations left: it stops right after the first attempt whose result is
not a retryable error. -/
def attemptsCount (results : Nat → AttemptResult) : Nat → Nat → Nat
  | 0, _ => 0
  | fuel + 1, i =>
      if results i = AttemptResult.retryableErr then attemptsCount results fuel (i + 1) + 1
      else 1

/-- One batch emitted by the splitting loop of `splitFilesForTable`: the records
written to it, the `offsetEnd` passed to `batchWriter.Done`, and the
`isLastBatch` flag. -/
structure SplitBatch where
  records : List String
  offsetEnd : Nat
  isLast : Bool
deriving DecidableEq

/-- Modelled from the spec: `BatchWriter.WriteRecord` (the BatchWriter component
is not part of the sources here) appends the converted row to the batch file;
an empty line carries no row, so it adds no record. -/
def writeRecord (records : List String) (line : String) : List String :=
  if line = "" then records else records ++ [line]

/-- Model of the splitting loop of `splitFilesForTable` (importData.go:451-507).
A read is a pair (line, isEOF): `dataFile.NextLine` returning the line together
with `readLineErr` (nil or `io.EOF`; other read errors abort the process and are
out of scope).  `lineBytes` models the growth of `dataFile.GetBytesRead` per
read and `convertRow` models `valueConverter.ConvertRow` (both live outside
these sources).  State: remaining reads, `numLinesTaken`, the records of the
current open batch, bytes read since the last `ResetBytesRead`. -/
def splitLoop (batchSize maxBatchSizeInBytes : Nat) (lineBytes : String → Nat)
    (convertRow : String → String) :
    List (String × Bool) → Nat → List String → Nat → List SplitBatch
  | [], _, _, _ => []
  | (line, isEOF) :: rest, numLinesTaken, records, bytes =>
      let numLinesTaken' :=
        if ¬isEOF ∨ line ≠ "" then numLinesTaken + 1 else numLinesTaken
      let line' := if line ≠ "" then convertRow line else line
      let records' := writeRecord records line'
      let bytes' := bytes + lineBytes line
      if isEOF then
        [{ records := records', offsetEnd := numLinesTaken', isLast := true }]
      else if records'.length = batchSize ∨ maxBatchSizeInBytes ≤ bytes' then
        { records := records', offsetEnd := numLinesTaken', isLast := false } ::
          splitLoop batchSize maxBatchSizeInBytes lineBytes convertRow rest numLinesTaken' [] 0
      else
        splitLoop batchSize maxBatchSizeInBytes lineBytes convertRow rest
          numLinesTaken' records' bytes'

/-- Model of `splitFilesForTable` (importData.go:421-509) after skipping
`lastOffset` lines: `numLinesTaken` starts at `lastOffset` and the loop runs
with an empty fresh batch. -/
def splitFilesForTable (batchSize maxBatchSizeInBytes : Nat) (lineBytes : String → Nat)
    (convertRow : String → String) (lastOffset : Nat)
    (reads : List (String × Bool)) : List SplitBatch :=
  splitLoop batchSize maxBatchSizeInBytes lineBytes convertRow reads lastOffset [] 0

/-- Element access with default 0, as Go array indexing on the stats window. -/
def listGet (l : List Int) (i : Nat) : Int := l.getD i 0

/-- Model of the shifting loop of `slideWindow`
(streamImportReporter.go:107-109): `for i := len(w)-1; i > 0; i-- ⟨ w[i] = w[i-1] ⟩`,
performed from the highest index down to 1. -/
def slideWindowLoop : List Int → Nat → List Int
  | w, 0 => w
  | w, i + 1 => slideWindowLoop (w.set (i + 1) (listGet w i)) i

/-- Model of `slideWindow` (streamImportReporter.go:105-112): shift every slot
one position toward higher indices, then zero slot 0. -/
def slideWindow (w : List Int) : List Int :=
  (slideWindowLoop w (w.length - 1)).set 0 0

/-- Model of `getIngestionRateForLastNMinutes` (streamImportReporter.go:123-126):
`lo.Sum(eventsSlidingWindow[1:6n+1]) / n` with Go's truncating int64 division. -/
def getIngestionRateForLastNMinutes (eventsSlidingWindow : List Int) (n : Int) : Int :=
  let windowSize : Int := 6 * n + 1
  Int.tdiv ((eventsSlidingWindow.take windowSize.toNat).drop 1).sum n

/-- Model of `ImportFileTask` (importData.go:83-87). -/
structure ImportFileTask where
  id : Int
  filePath : String
  tableName : String
deriving DecidableEq

/-- The three file-import states of importData.go:329-338.  The Go state is a
string; an unknown string (the `default` arm) and a state-store read error are
both modelled by the state function returning `none`. -/
inductive FileImportState where
  | notStarted
  | inProgress
  | completed
deriving DecidableEq

/-- Accumulation pass of `classifyTasks` (importData.go:321-342): builds the
`inProgressTasks`, `notStartedTasks` and `completedTasks` lists in input order,
propagating the first error. -/
def classifyTasksAux (st : String → String → Option FileImportState) :
    List ImportFileTask →
      Option (List ImportFileTask × List ImportFileTask × List ImportFileTask)
  | [] => some ([], [], [])
  | t :: rest =>
      match st t.filePath t.tableName with
      | none => none
      | some s =>
          match classifyTasksAux st rest with
          | none => none
          | some (ip, ns, c) =>
              match s with
              | FileImportState.inProgress => some (t :: ip, ns, c)
              | FileImportState.notStarted => some (ip, t :: ns, c)
              | FileImportState.completed => some (ip, ns, t :: c)

/-- Model of `classifyTasks` (importData.go:321-342): returns
(`inProgressTasks ++ notStartedTasks`, `completedTasks`), or `none` when
`GetFileImportState` fails or yields an invalid state. -/
def classifyTasks (st : String → String → Option FileImportState)
    (tasks : List ImportFileTask) : Option (List ImportFileTask × List ImportFileTask) :=
  match classifyTasksAux st tasks with
  | none => none
  | some (ip, ns, c) => some (ip ++ ns, c)

/-- Helper: the concatenation of the batches a worker executes equals the
incoming events before the sentinel, filtered by the fixed threshold. -/
theorem processEventsLoop_flatten (maxB : Nat) (v : Int) (msgs : List ChanMsg) :
    ∀ batch : List Event,
      (processEventsLoop maxB v msgs batch).flatten
        = batch ++ (eventsUpToSentinel msgs).filter (fun e => decide (v < e.vsn)) := by
  induction msgs with
  | nil =>
    intro batch
    by_cases hb : batch = [] <;> simp [processEventsLoop, eventsUpToSentinel, hb]
  | cons m rest ih =>
    intro batch
    cases m with
    | endOfSegment =>
      by_cases hb : batch = [] <;> simp [processEventsLoop, eventsUpToSentinel, hb]
    | timeout =>
      by_cases hb : batch = [] <;>
        simp [processEventsLoop, eventsUpToSentinel, hb, ih]
    | ev e =>
      by_cases hle : e.vsn ≤ v
      · have hnlt : ¬ (v < e.vsn) := not_lt.mpr hle
        simp [processEventsLoop, eventsUpToSentinel, hle, ih, List.filter_cons, hnlt]
      · have hlt : v < e.vsn := not_le.mp hle
        by_cases hfull : maxB ≤ batch.length + 1
        · simp [processEventsLoop, eventsUpToSentinel, hle, hfull, ih, List.filter_cons, hlt]
        · simp [processEventsLoop, eventsUpToSentinel, hle, hfull, ih, List.filter_cons, hlt]

/-- C1 (amended): a channel worker adds a received event to the current batch
iff its VSN is strictly greater than the channel's last-applied VSN recorded
from event_channels_metadata before the first batch is formed; that in-memory
threshold is never updated afterwards, so the events executed across all
batches are exactly the received events (before the sentinel) with VSN
strictly above the initial threshold, in arrival order. -/
theorem processEvents_filters_by_initial_vsn (maxB : Nat) (v : Int) (msgs : List ChanMsg) :
    (processEvents maxB v msgs).flatten
      = (eventsUpToSentinel msgs).filter (fun e => decide (v < e.vsn)) := by
  simpa [processEvents] using processEventsLoop_flatten maxB v msgs []

/-- C1 (counterexample): the Go worker never updates its in-memory
lastAppliedVsn after a batch is applied.  With initial VSN 0, after applying
the batch [vsn 5] the code still accepts a following event with vsn 3, whereas
the claim's updated-watermark behavior (processEventsSpec) would drop it. -/
theorem processEvents_watermark_not_updated :
    processEvents 2000 0
        [ChanMsg.ev { op := "c", schemaName := "s", tableName := "t", key := [], vsn := 5 },
         ChanMsg.timeout,
         ChanMsg.ev { op := "c", schemaName := "s", tableName := "t", key := [], vsn := 3 },
         ChanMsg.endOfSegment]
      = [[{ op := "c", schemaName := "s", tableName := "t", key := [], vsn := 5 }],
         [{ op := "c", schemaName := "s", tableName := "t", key := [], vsn := 3 }]] ∧
    processEventsSpec 2000 0
        [ChanMsg.ev { op := "c", schemaName := "s", tableName := "t", key := [], vsn := 5 },
         ChanMsg.timeout,
         ChanMsg.ev { op := "c", schemaName := "s", tableName := "t", key := [], vsn := 3 },
         ChanMsg.endOfSegment]
      = [[{ op := "c", schemaName := "s", tableName := "t", key := [], vsn := 5 }]] ∧
    processEvents 2000 0
        [ChanMsg.ev { op := "c", schemaName := "s", tableName := "t", key := [], vsn := 5 },
         ChanMsg.timeout,
         ChanMsg.ev { op := "c", schemaName := "s", tableName := "t", key := [], vsn := 3 },
         ChanMsg.endOfSegment]
      ≠ processEventsSpec 2000 0
        [ChanMsg.ev { op := "c", schemaName := "s", tableName := "t", key := [], vsn := 5 },
         ChanMsg.timeout,
         ChanMsg.ev { op := "c", schemaName := "s", tableName := "t", key := [], vsn := 3 },
         ChanMsg.endOfSegment] := by
  refine ⟨by decide, by decide, by decide⟩

/-- C3: hashEvent lands in [0, NUM_EVENT_CHANNELS), so the send
`evChans[hashEvent(event)]` in handleEvent always indexes within the
NUM_EVENT_CHANNELS-element channel slice. -/
theorem hashEvent_lt_numEventChannels (numEventChannels : Nat)
    (h : 0 < numEventChannels) (targetDBType sourceDBType : String) (e : Event) :
    hashEvent numEventChannels e < numEventChannels ∧
      (handleEvent targetDBType sourceDBType numEventChannels e).channel
        < numEventChannels := by
  have hx : ∀ ev : Event, hashEvent numEventChannels ev < numEventChannels := by
    intro ev
    unfold hashEvent
    exact Nat.mod_lt _ h
  exact ⟨hx e, by simpa [handleEvent] using hx e⟩

/-- Witness for C3 at NUM_EVENT_CHANNELS = 512 and a concrete event. -/
theorem hashEvent_lt_numEventChannels_witness :
    0 < 512 ∧
      (hashEvent 512
          { op := "u", schemaName := "s", tableName := "t", key := [("id", "1")], vsn := 1 }
          < 512 ∧
        (handleEvent YUGABYTEDB "postgresql" 512
            { op := "u", schemaName := "s", tableName := "t", key := [("id", "1")], vsn := 1 }).channel
          < 512) :=
  ⟨by decide, hashEvent_lt_numEventChannels 512 (by decide) YUGABYTEDB "postgresql" _⟩

/-- C4: the formatIfRequired flag handleEvent passes to ConvertEvent is true
iff (target is YugabyteDB and the op is "u") or the target is Oracle; for
every other combination it is false. -/
theorem handleEvent_formatIfRequired_iff (targetDBType sourceDBType : String)
    (numEventChannels : Nat) (e : Event) :
    (handleEvent targetDBType sourceDBType numEventChannels e).formatIfRequired = true
      ↔ ((targetDBType = YUGABYTEDB ∧ e.op = "u") ∨ targetDBType = ORACLE) := by
  simp [handleEvent, shouldFormatValues, Bool.or_eq_true, Bool.and_eq_true, beq_iff_eq]

/-- C7: in the action sequence of streamChangesFromSegment, the call to
MarkEventQueueSegmentAsProcessed comes strictly after the sentinel has been
enqueued into every one of the NUM_EVENT_CHANNELS channels and a done-signal
has been received from every one of the workers, and it does not occur
earlier. -/
theorem streamChangesFromSegment_mark_last (numEventChannels : Nat)
    (targetDBType sourceDBType : String) (segmentNum : Nat) (events : List Event) :
    ∃ pre,
      streamChangesFromSegment numEventChannels targetDBType sourceDBType segmentNum events
          = pre ++ [SegAction.markProcessed segmentNum]
        ∧ (∀ i, i < numEventChannels →
            SegAction.sendSentinel i ∈ pre ∧ SegAction.recvDone i ∈ pre)
        ∧ SegAction.markProcessed segmentNum ∉ pre := by
  refine ⟨(events.map fun e =>
        SegAction.sendEvent (handleEvent targetDBType sourceDBType numEventChannels e).channel e)
      ++ (List.range numEventChannels).map SegAction.sendSentinel
      ++ (List.range numEventChannels).map SegAction.recvDone, ?_, ?_, ?_⟩
  · simp [streamChangesFromSegment]
  · intro i hi
    constructor
    · simp only [List.mem_append, List.mem_map, List.mem_range]
      exact Or.inl (Or.inr ⟨i, hi, rfl⟩)
    · simp only [List.mem_append, List.mem_map, List.mem_range]
      exact Or.inr ⟨i, hi, rfl⟩
  · simp

/-- Witness for C7 at two channels, segment 5, one concrete event. -/
theorem streamChangesFromSegment_mark_last_witness :
    ∃ pre,
      streamChangesFromSegment 2 YUGABYTEDB "postgresql" 5
          [{ op := "c", schemaName := "s", tableName := "t", key := [], vsn := 1 }]
          = pre ++ [SegAction.markProcessed 5]
        ∧ (∀ i, i < 2 → SegAction.sendSentinel i ∈ pre ∧ SegAction.recvDone i ∈ pre)
        ∧ SegAction.markProcessed 5 ∉ pre :=
  streamChangesFromSegment_mark_last 2 YUGABYTEDB "postgresql" 5 _

/-- Helper: every batch the worker loop executes is non-empty and no larger
than MAX_EVENTS_PER_BATCH, given that the batch under construction is still
below the limit. -/
theorem processEventsLoop_batch_sizes (maxB : Nat) (v : Int) (msgs : List ChanMsg) :
    ∀ batch : List Event, batch.length < maxB →
      ∀ b ∈ processEventsLoop maxB v msgs batch, 1 ≤ b.length ∧ b.length ≤ maxB := by
  induction msgs with
  | nil =>
    intro batch hlt b hb
    by_cases hbe : batch = []
    · simp [processEventsLoop, hbe] at hb
    · simp [processEventsLoop, hbe] at hb
      subst hb
      exact ⟨List.length_pos.mpr hbe, le_of_lt hlt⟩
  | cons m rest ih =>
    intro batch hlt b hb
    cases m with
    | endOfSegment =>
      by_cases hbe : batch = []
      · simp [processEventsLoop, hbe] at hb
      · simp [processEventsLoop, hbe] at hb
        subst hb
        exact ⟨List.length_pos.mpr hbe, le_of_lt hlt⟩
    | timeout =>
      have hpos : 0 < maxB := lt_of_le_of_lt (Nat.zero_le _) hlt
      by_cases hbe : batch = []
      · simp [processEventsLoop, hbe] at hb
        exact ih [] (by simpa using hpos) b hb
      · simp [processEventsLoop, hbe] at hb
        rcases hb with hb | hb
        · subst hb
          exact ⟨List.length_pos.mpr hbe, le_of_lt hlt⟩
        · exact ih [] (by simpa using hpos) b hb
    | ev e =>
      have hpos : 0 < maxB := lt_of_le_of_lt (Nat.zero_le _) hlt
      by_cases hle : e.vsn ≤ v
      · simp [processEventsLoop, hle] at hb
        exact ih batch hlt b hb
      · by_cases hfull : maxB ≤ batch.length + 1
        · simp [processEventsLoop, hle, hfull] at hb
          rcases hb with hb | hb
          · subst hb
            refine ⟨?_, ?_⟩
            · simp
            · simpa using Nat.succ_le_of_lt hlt
          · exact ih [] (by simpa using hpos) b hb
        · simp [processEventsLoop, hle, hfull] at hb
          refine ih (batch ++ [e]) ?_ b hb
          simpa using lt_of_not_ge hfull

/-- C8: every event batch a channel worker passes to tdb.ExecuteBatch contains
at least 1 and at most MAX_EVENTS_PER_BATCH events. -/
theorem processEvents_batch_size_bounds (maxB : Nat) (h : 0 < maxB) (v : Int)
    (msgs : List ChanMsg) :
    ∀ b ∈ processEvents maxB v msgs, 1 ≤ b.length ∧ b.length ≤ maxB := by
  intro b hb
  exact processEventsLoop_batch_sizes maxB v msgs [] (by simpa using h) b hb

/-- Witness for C8 with MAX_EVENTS_PER_BATCH = 2 and three incoming events. -/
theorem processEvents_batch_size_bounds_witness :
    0 < 2 ∧
      ∀ b ∈ processEvents 2 0
        [ChanMsg.ev { op := "c", schemaName := "s", tableName := "t", key := [], vsn := 1 },
         ChanMsg.ev { op := "c", schemaName := "s", tableName := "t", key := [], vsn := 2 },
         ChanMsg.ev { op := "c", schemaName := "s", tableName := "t", key := [], vsn := 3 },
         ChanMsg.endOfSegment],
        1 ≤ b.length ∧ b.length ≤ 2 :=
  ⟨by decide, processEvents_batch_size_bounds 2 (by decide) 0 _⟩

/-- Helper: association-list lookup is invariant under permutation when the
keys are distinct (a Go map holds distinct keys, so any two iteration orders
of the same map are such permutations). -/
theorem lookup_eq_of_perm :
    ∀ {l₁ l₂ : List (String × String)}, l₁.Perm l₂ →
      (l₁.map Prod.fst).Nodup → ∀ k, l₁.lookup k = l₂.lookup k := by
  intro l₁ l₂ h
  induction h with
  | nil => intro _ _; rfl
  | cons x h ih =>
    intro hnd k
    simp only [List.map_cons, List.nodup_cons] at hnd
    by_cases hk : k == x.1
    · simp [List.lookup, hk]
    · simp only [List.lookup, hk]
      exact ih hnd.2 k
  | swap x y l =>
    intro hnd k
    simp only [List.map_cons, List.nodup_cons, List.mem_cons] at hnd
    have hxy : y.1 ≠ x.1 := fun hcontra => hnd.1 (Or.inl hcontra)
    by_cases hky : k == y.1
    · have hk1 : k = y.1 := by simpa using hky
      have hkx : ¬ (k == x.1) = true := by
        simp only [beq_iff_eq]
        rw [hk1]
        exact hxy
      simp [List.lookup, hky, hkx]
    · by_cases hkx : k == x.1
      · simp [List.lookup, hky, hkx]
      · simp [List.lookup, hky, hkx]
  | trans h₁ h₂ ih₁ ih₂ =>
    intro hnd k
    have hnd₂ := ((h₁.map Prod.fst).nodup_iff).mp hnd
    exact (ih₁ hnd k).trans (ih₂ hnd₂ k)

/-- C2: hashEvent is stable under the iteration order of the key map — two
events with the same schema name, same table name, and keys that are
permutations of one another (the same column-to-value mapping) hash to the
same channel. -/
theorem hashEvent_stable (numEventChannels : Nat) (e₁ e₂ : Event)
    (hs : e₁.schemaName = e₂.schemaName) (ht : e₁.tableName = e₂.tableName)
    (hperm : e₁.key.Perm e₂.key) (hnd : (e₁.key.map Prod.fst).Nodup) :
    hashEvent numEventChannels e₁ = hashEvent numEventChannels e₂ := by
  have hkeysperm : (e₁.key.map Prod.fst).Perm (e₂.key.map Prod.fst) := hperm.map _
  have hsorted : List.insertionSort (fun a b => a ≤ b) (e₁.key.map Prod.fst)
      = List.insertionSort (fun a b => a ≤ b) (e₂.key.map Prod.fst) :=
    List.eq_of_perm_of_sorted
      (((List.perm_insertionSort _ _).trans hkeysperm).trans (List.perm_insertionSort _ _).symm)
      (List.sorted_insertionSort _ _) (List.sorted_insertionSort _ _)
  have hlookup : ∀ k, e₁.key.lookup k = e₂.key.lookup k := lookup_eq_of_perm hperm hnd
  have hfold : ∀ (l : List String) (h0 : Nat),
      l.foldl (fun h k => fnvWriteString h ((e₁.key.lookup k).getD "")) h0
        = l.foldl (fun h k => fnvWriteString h ((e₂.key.lookup k).getD "")) h0 := by
    intro l
    induction l with
    | nil => intro h0; rfl
    | cons a t ih =>
      intro h0
      simp only [List.foldl_cons, hlookup a]
      exact ih _
  show (List.insertionSort (fun a b => a ≤ b) (e₁.key.map Prod.fst)).foldl
        (fun h k => fnvWriteString h ((e₁.key.lookup k).getD ""))
        (fnvWriteString fnvOffsetBasis (e₁.schemaName ++ e₁.tableName)) % numEventChannels
      = (List.insertionSort (fun a b => a ≤ b) (e₂.key.map Prod.fst)).foldl
          (fun h k => fnvWriteString h ((e₂.key.lookup k).getD ""))
          (fnvWriteString fnvOffsetBasis (e₂.schemaName ++ e₂.tableName)) % numEventChannels
  rw [hs, ht, hsorted]
  exact congrArg (fun x => x % numEventChannels) (hfold _ _)

/-- Witness for C2: two concrete events whose key maps list the same
column-to-value pairs in opposite orders route identically. -/
theorem hashEvent_stable_witness :
    ([("a", "1"), ("b", "2")] : List (String × String)).Perm [("b", "2"), ("a", "1")]
    ∧ (([("a", "1"), ("b", "2")] : List (String × String)).map Prod.fst).Nodup
    ∧ hashEvent 512
        { op := "u", schemaName := "public", tableName := "tbl",
          key := [("a", "1"), ("b", "2")], vsn := 1 }
      = hashEvent 512
        { op := "u", schemaName := "public", tableName := "tbl",
          key := [("b", "2"), ("a", "1")], vsn := 1 } :=
  ⟨by decide, by decide,
    hashEvent_stable 512 _ _ rfl rfl (by decide) (by decide)⟩

/-- Helper: one-step unfolding of the retry loop when no fuel is left. -/
theorem importBatchLoop_zero (results : Nat → AttemptResult) (maxSleep i s : Nat) (e : Bool) :
    importBatchLoop results maxSleep 0 i s e
      = if e then [BatchAction.errExit] else [BatchAction.markDone] := rfl

/-- Helper: one-step unfolding of the retry loop on a successful attempt. -/
theorem importBatchLoop_success_step (results : Nat → AttemptResult)
    (maxSleep fuel i s : Nat) (e : Bool) (hr : results i = AttemptResult.success) :
    importBatchLoop results maxSleep (fuel + 1) i s e
      = [BatchAction.attempt AttemptResult.success, BatchAction.markDone] := by
  simp [importBatchLoop, hr]

/-- Helper: one-step unfolding of the retry loop on a non-retryable error. -/
theorem importBatchLoop_nonretry_step (results : Nat → AttemptResult)
    (maxSleep fuel i s : Nat) (e : Bool) (hr : results i = AttemptResult.nonRetryableErr) :
    importBatchLoop results maxSleep (fuel + 1) i s e
      = [BatchAction.attempt AttemptResult.nonRetryableErr, BatchAction.errExit] := by
  simp [importBatchLoop, hr]

/-- Helper: one-step unfolding of the retry loop on a retryable error. -/
theorem importBatchLoop_retry_step (results : Nat → AttemptResult)
    (maxSleep fuel i s : Nat) (e : Bool) (hr : results i = AttemptResult.retryableErr) :
    importBatchLoop results maxSleep (fuel + 1) i s e
      = BatchAction.attempt AttemptResult.retryableErr
        :: BatchAction.sleep (min (s + 10) maxSleep)
        :: importBatchLoop results maxSleep fuel (i + 1) (min (s + 10) maxSleep) true := by
  simp [importBatchLoop, hr]

/-- Helper: unfolding of attemptsCount at zero fuel. -/
theorem attemptsCount_zero (results : Nat → AttemptResult) (i : Nat) :
    attemptsCount results 0 i = 0 := rfl

/-- Helper: unfolding of attemptsCount at positive fuel. -/
theorem attemptsCount_succ (results : Nat → AttemptResult) (fuel i : Nat) :
    attemptsCount results (fuel + 1) i
      = if results i = AttemptResult.retryableErr then attemptsCount results fuel (i + 1) + 1
        else 1 := rfl

/-- Helper: the loop makes at most `fuel` attempts. -/
theorem attemptsCount_le (results : Nat → AttemptResult) :
    ∀ fuel i, attemptsCount results fuel i ≤ fuel := by
  intro fuel
  induction fuel with
  | zero => intro i; simp [attemptsCount_zero]
  | succ n ih =>
    intro i
    rw [attemptsCount_succ]
    by_cases hr : results i = AttemptResult.retryableErr
    · rw [if_pos hr]
      exact Nat.succ_le_succ (ih (i + 1))
    · rw [if_neg hr]
      omega

/-- Helper: with positive fuel the loop makes at least one attempt. -/
theorem attemptsCount_pos (results : Nat → AttemptResult) :
    ∀ fuel i, 0 < fuel → 1 ≤ attemptsCount results fuel i := by
  intro fuel i h
  cases fuel with
  | zero => omega
  | succ n =>
    rw [attemptsCount_succ]
    by_cases hr : results i = AttemptResult.retryableErr
    · rw [if_pos hr]; omega
    · rw [if_neg hr]

/-- Helper: every attempt before the last one failed retryably. -/
theorem attemptsCount_prefix_retryable (results : Nat → AttemptResult) :
    ∀ fuel i k, k + 1 < attemptsCount results fuel i →
      results (i + k) = AttemptResult.retryableErr := by
  intro fuel
  induction fuel with
  | zero => intro i k h; rw [attemptsCount_zero] at h; omega
  | succ n ih =>
    intro i k h
    rw [attemptsCount_succ] at h
    by_cases hr : results i = AttemptResult.retryableErr
    · rw [if_pos hr] at h
      cases k with
      | zero => simpa using hr
      | succ k' =>
        have hk : k' + 1 < attemptsCount results n (i + 1) := by omega
        have hidx : i + (k' + 1) = (i + 1) + k' := by omega
        rw [hidx]
        exact ih (i + 1) k' hk
    · rw [if_neg hr] at h
      omega

/-- Helper: if the loop stopped before exhausting its fuel, the last attempt
was a success or a non-retryable error. -/
theorem attemptsCount_stop (results : Nat → AttemptResult) :
    ∀ fuel i, attemptsCount results fuel i < fuel →
      results (i + (attemptsCount results fuel i - 1)) ≠ AttemptResult.retryableErr := by
  intro fuel
  induction fuel with
  | zero => intro i h; rw [attemptsCount_zero] at h; omega
  | succ n ih =>
    intro i h
    rw [attemptsCount_succ] at h ⊢
    by_cases hr : results i = AttemptResult.retryableErr
    · rw [if_pos hr] at h ⊢
      have hc : attemptsCount results n (i + 1) < n := by omega
      have hpos : 1 ≤ attemptsCount results n (i + 1) :=
        attemptsCount_pos results n (i + 1) (by omega)
      have hidx : i + (attemptsCount results n (i + 1) + 1 - 1)
          = (i + 1) + (attemptsCount results n (i + 1) - 1) := by omega
      rw [hidx]
      exact ih (i + 1) hc
    · rw [if_neg hr] at h ⊢
      simpa using hr

/-- Helper: the attempts in the loop trace are exactly the results of the
first attemptsCount indices, in order. -/
theorem attemptsIn_importBatchLoop (results : Nat → AttemptResult) (maxSleep : Nat) :
    ∀ (fuel i s : Nat) (e : Bool),
      attemptsIn (importBatchLoop results maxSleep fuel i s e)
        = (List.range' i (attemptsCount results fuel i)).map results := by
  intro fuel
  induction fuel with
  | zero =>
    intro i s e
    rw [importBatchLoop_zero, attemptsCount_zero]
    cases e <;> simp [attemptsIn]
  | succ n ih =>
    intro i s e
    cases hr : results i with
    | success =>
      rw [importBatchLoop_success_step _ _ _ _ _ _ hr, attemptsCount_succ,
        if_neg (by rw [hr]; intro hcontra; cases hcontra)]
      simp [attemptsIn, List.range', hr]
    | nonRetryableErr =>
      rw [importBatchLoop_nonretry_step _ _ _ _ _ _ hr, attemptsCount_succ,
        if_neg (by rw [hr]; intro hcontra; cases hcontra)]
      simp [attemptsIn, List.range', hr]
    | retryableErr =>
      rw [importBatchLoop_retry_step _ _ _ _ _ _ hr, attemptsCount_succ, if_pos hr]
      simp only [attemptsIn]
      rw [ih, List.range'_succ]
      simp [hr]

/-- Helper: the sleeps in the loop trace are min(10·k, cap) for consecutive k. -/
theorem sleepsIn_importBatchLoop (results : Nat → AttemptResult) (maxSleep : Nat) :
    ∀ (fuel i j : Nat) (e : Bool),
      ∃ m, sleepsIn (importBatchLoop results maxSleep fuel i (min (10 * j) maxSleep) e)
        = (List.range' (j + 1) m).map (fun k => min (10 * k) maxSleep) := by
  intro fuel
  induction fuel with
  | zero =>
    intro i j e
    refine ⟨0, ?_⟩
    rw [importBatchLoop_zero]
    cases e <;> simp [sleepsIn]
  | succ n ih =>
    intro i j e
    cases hr : results i with
    | success =>
      exact ⟨0, by rw [importBatchLoop_success_step _ _ _ _ _ _ hr]; simp [sleepsIn]⟩
    | nonRetryableErr =>
      exact ⟨0, by rw [importBatchLoop_nonretry_step _ _ _ _ _ _ hr]; simp [sleepsIn]⟩
    | retryableErr =>
      have hmin : min (min (10 * j) maxSleep + 10) maxSleep = min (10 * (j + 1)) maxSleep := by
        omega
      obtain ⟨m, hm⟩ := ih (i + 1) (j + 1) true
      refine ⟨m + 1, ?_⟩
      rw [importBatchLoop_retry_step _ _ _ _ _ _ hr, hmin]
      simp only [sleepsIn]
      rw [hm, List.range'_succ]
      simp

/-- Helper: membership of MarkDone in the loop trace is equivalent to the last
attempt having succeeded (with positive fuel). -/
theorem markDone_importBatchLoop (results : Nat → AttemptResult) (maxSleep : Nat) :
    ∀ (fuel i s : Nat) (e : Bool), 0 < fuel →
      (BatchAction.markDone ∈ importBatchLoop results maxSleep fuel i s e
        ↔ results (i + (attemptsCount results fuel i - 1)) = AttemptResult.success) := by
  intro fuel
  induction fuel with
  | zero => intro i s e h; omega
  | succ n ih =>
    intro i s e _
    cases hr : results i with
    | success =>
      rw [importBatchLoop_success_step _ _ _ _ _ _ hr, attemptsCount_succ,
        if_neg (by rw [hr]; intro hcontra; cases hcontra)]
      simp [hr]
    | nonRetryableErr =>
      rw [importBatchLoop_nonretry_step _ _ _ _ _ _ hr, attemptsCount_succ,
        if_neg (by rw [hr]; intro hcontra; cases hcontra)]
      simp [hr]
    | retryableErr =>
      rw [importBatchLoop_retry_step _ _ _ _ _ _ hr, attemptsCount_succ, if_pos hr]
      cases n with
      | zero =>
        rw [attemptsCount_zero]
        simp [importBatchLoop_zero, hr]
      | succ m =>
        have hpos : 1 ≤ attemptsCount results (m + 1) (i + 1) :=
          attemptsCount_pos results (m + 1) (i + 1) (by omega)
        have hih := ih (i + 1) (min (s + 10) maxSleep) true (by omega)
        have hidx : (i + 1) + (attemptsCount results (m + 1) (i + 1) - 1)
            = i + (attemptsCount results (m + 1) (i + 1) + 1 - 1) := by omega
        rw [hidx] at hih
        simp only [List.mem_cons]
        rw [← hih]
        constructor
        · intro hmem
          rcases hmem with h1 | h1 | h1
          · cases h1
          · cases h1
          · exact h1
        · intro hmem
          exact Or.inr (Or.inr hmem)

/-- C5: importBatch calls MarkPending first, makes at most COPY_MAX_RETRY_COUNT
ImportBatch attempts, stops right after the first success or non-retryable
error, sleeps min(10·k, MAX_SLEEP_SECOND) seconds before the k-th retry, and
calls MarkDone iff the final attempt returned no error. -/
theorem importBatch_retry_contract (results : Nat → AttemptResult)
    (copyMaxRetryCount maxSleepSecond : Nat) (h : 0 < copyMaxRetryCount) :
    (importBatch results copyMaxRetryCount maxSleepSecond).head? = some BatchAction.markPending
    ∧ attemptsIn (importBatch results copyMaxRetryCount maxSleepSecond)
        = (List.range' 0 (attemptsCount results copyMaxRetryCount 0)).map results
    ∧ 1 ≤ attemptsCount results copyMaxRetryCount 0
    ∧ attemptsCount results copyMaxRetryCount 0 ≤ copyMaxRetryCount
    ∧ (∀ k, k + 1 < attemptsCount results copyMaxRetryCount 0 →
        results k = AttemptResult.retryableErr)
    ∧ (attemptsCount results copyMaxRetryCount 0 < copyMaxRetryCount →
        results (attemptsCount results copyMaxRetryCount 0 - 1) ≠ AttemptResult.retryableErr)
    ∧ (∃ m, sleepsIn (importBatch results copyMaxRetryCount maxSleepSecond)
        = (List.range' 1 m).map (fun k => min (10 * k) maxSleepSecond))
    ∧ (BatchAction.markDone ∈ importBatch results copyMaxRetryCount maxSleepSecond
        ↔ results (attemptsCount results copyMaxRetryCount 0 - 1) = AttemptResult.success) := by
  refine ⟨rfl, ?_, ?_, ?_, ?_, ?_, ?_, ?_⟩
  · show attemptsIn (importBatchLoop results maxSleepSecond copyMaxRetryCount 0 0 false) = _
    exact attemptsIn_importBatchLoop results maxSleepSecond copyMaxRetryCount 0 0 false
  · exact attemptsCount_pos results copyMaxRetryCount 0 h
  · exact attemptsCount_le results copyMaxRetryCount 0
  · intro k hk
    simpa using attemptsCount_prefix_retryable results copyMaxRetryCount 0 k hk
  · intro hlt
    simpa using attemptsCount_stop results copyMaxRetryCount 0 hlt
  · have h0 : (0 : Nat) = min (10 * 0) maxSleepSecond := by omega
    obtain ⟨m, hm⟩ := sleepsIn_importBatchLoop results maxSleepSecond copyMaxRetryCount 0 0 false
    refine ⟨m, ?_⟩
    show sleepsIn (importBatchLoop results maxSleepSecond copyMaxRetryCount 0 0 false) = _
    rw [h0] at hm ⊢
    simpa using hm
  · have hloop := markDone_importBatchLoop results maxSleepSecond copyMaxRetryCount 0 0 false h
    rw [Nat.zero_add] at hloop
    simp only [importBatch, List.mem_cons]
    rw [← hloop]
    constructor
    · intro hmem
      rcases hmem with h1 | h1
      · cases h1
      · exact h1
    · intro hmem
      exact Or.inr hmem

/-- Witness for C5 with an always-succeeding ImportBatch and retry budget 3. -/
theorem importBatch_retry_contract_witness :
    0 < 3 ∧
      (importBatch (fun _ => AttemptResult.success) 3 60).head?
          = some BatchAction.markPending ∧
      BatchAction.markDone ∈ importBatch (fun _ => AttemptResult.success) 3 60 := by
  have h := importBatch_retry_contract (fun _ => AttemptResult.success) 3 60 (by decide)
  exact ⟨by decide, h.1, (h.2.2.2.2.2.2.2).mpr (by decide)⟩

/-- Helper: on a read sequence ending in an EOF read carrying a non-empty
line, the splitting loop's final batch is flagged last, its last record is the
converted EOF line, and its offsetEnd counts every read line including the EOF
one. -/
theorem splitLoop_eof_line (batchSize maxBytes : Nat) (lineBytes : String → Nat)
    (convertRow : String → String) (s : String) (hs : s ≠ "") (hc : convertRow s ≠ "") :
    ∀ (pre : List String) (taken : Nat) (records : List String) (bytes : Nat),
      ∃ b, (splitLoop batchSize maxBytes lineBytes convertRow
              (pre.map (fun l => (l, false)) ++ [(s, true)]) taken records bytes).getLast?
            = some b
        ∧ b.isLast = true
        ∧ b.records.getLast? = some (convertRow s)
        ∧ b.offsetEnd = taken + pre.length + 1 := by
  intro pre
  induction pre with
  | nil =>
    intro taken records bytes
    refine ⟨{ records := writeRecord records (convertRow s), offsetEnd := taken + 1,
              isLast := true }, ?_, rfl, ?_, by simp⟩
    · simp [splitLoop, hs]
    · simp [writeRecord, hc]
  | cons l pre ih =>
    intro taken records bytes
    have hcond : (¬false = true ∨ l ≠ "") := Or.inl (by simp)
    obtain ⟨b, hb, hlast, hrec, hoff⟩ :=
      ih (taken + 1) (writeRecord records (if l = "" then l else convertRow l))
        (bytes + lineBytes l)
    obtain ⟨b', hb', hlast', hrec', hoff'⟩ := ih (taken + 1) [] 0
    by_cases hclose :
        (writeRecord records (if l = "" then l else convertRow l)).length = batchSize
          ∨ maxBytes ≤ bytes + lineBytes l
    · refine ⟨b', ?_, hlast', hrec', by rw [List.length_cons]; omega⟩
      simp only [List.map_cons, List.cons_append, splitLoop, List.append_eq, ite_not]
      rw [if_neg (show ¬(false = true) by simp), if_pos hcond, if_pos hclose]
      have hne : splitLoop batchSize maxBytes lineBytes convertRow
          (pre.map (fun l => (l, false)) ++ [(s, true)]) (taken + 1) [] 0 ≠ [] := by
        intro hcontra
        rw [hcontra] at hb'
        cases hb'
      cases hrest : splitLoop batchSize maxBytes lineBytes convertRow
          (pre.map (fun l => (l, false)) ++ [(s, true)]) (taken + 1) [] 0 with
      | nil => exact absurd hrest hne
      | cons x xs =>
        rw [hrest] at hb'
        rw [List.getLast?_cons_cons]
        exact hb'
    · refine ⟨b, ?_, hlast, hrec, by rw [List.length_cons]; omega⟩
      simp only [List.map_cons, List.cons_append, splitLoop, List.append_eq, ite_not]
      rw [if_neg (show ¬(false = true) by simp), if_pos hcond, if_neg hclose]
      exact hb

/-- C6: a final line returned together with io.EOF and no trailing newline is
still counted by splitFilesForTable — numLinesTaken is incremented for it, the
converted line is written to the current batch as its last record, and the
final batch's offsetEnd includes it. -/
theorem splitFilesForTable_counts_eof_line (batchSize maxBytes : Nat)
    (lineBytes : String → Nat) (convertRow : String → String) (lastOffset : Nat)
    (pre : List String) (s : String) (hs : s ≠ "") (hc : convertRow s ≠ "") :
    ∃ b, (splitFilesForTable batchSize maxBytes lineBytes convertRow lastOffset
            (pre.map (fun l => (l, false)) ++ [(s, true)])).getLast? = some b
      ∧ b.isLast = true
      ∧ b.records.getLast? = some (convertRow s)
      ∧ b.offsetEnd = lastOffset + pre.length + 1 :=
  splitLoop_eof_line batchSize maxBytes lineBytes convertRow s hs hc pre lastOffset [] 0

/-- Witness for C6: a two-line file whose last line has no trailing newline. -/
theorem splitFilesForTable_counts_eof_line_witness :
    ("b" : String) ≠ "" ∧
      (∃ b, (splitFilesForTable 10 100 String.length (fun x => x) 0
              ([("a", false), ("b", true)])).getLast? = some b
        ∧ b.isLast = true
        ∧ b.records.getLast? = some "b"
        ∧ b.offsetEnd = 2) :=
  ⟨by decide,
    splitFilesForTable_counts_eof_line 10 100 String.length (fun x => x) 0 ["a"] "b"
      (by decide) (by decide)⟩

/-- Helper: reading a list after a set. -/
theorem listGet_set (l : List Int) (i j : Nat) (v : Int) :
    listGet (l.set i v) j = if i = j ∧ i < l.length then v else listGet l j := by
  induction l generalizing i j with
  | nil => simp [listGet]
  | cons a t ih =>
    cases i with
    | zero =>
      cases j with
      | zero => simp [listGet, List.length_cons]
      | succ j' => simp [listGet, List.length_cons]
    | succ i' =>
      cases j with
      | zero => simp [listGet, List.length_cons]
      | succ j' =>
        show listGet (t.set i' v) j' = _
        rw [ih i' j']
        by_cases h1 : i' = j' ∧ i' < t.length
        · rw [if_pos h1, if_pos (show i' + 1 = j' + 1 ∧ i' + 1 < (a :: t).length by
            rw [List.length_cons]; omega)]
        · rw [if_neg h1, if_neg (show ¬(i' + 1 = j' + 1 ∧ i' + 1 < (a :: t).length) by
            rw [List.length_cons]; omega)]
          rfl

/-- Helper: the shifting loop preserves the window length. -/
theorem length_slideWindowLoop (i : Nat) :
    ∀ w : List Int, (slideWindowLoop w i).length = w.length := by
  induction i with
  | zero => intro w; rfl
  | succ i ih =>
    intro w
    show (slideWindowLoop (w.set (i + 1) (listGet w i)) i).length = w.length
    rw [ih, List.length_set]

/-- Helper: after the shifting loop down to index 1, slot k holds the old slot
k-1 for 1 ≤ k ≤ i and is unchanged elsewhere. -/
theorem listGet_slideWindowLoop (i : Nat) :
    ∀ w : List Int, i < w.length → ∀ k,
      listGet (slideWindowLoop w i) k
        = if 1 ≤ k ∧ k ≤ i then listGet w (k - 1) else listGet w k := by
  induction i with
  | zero =>
    intro w _ k
    show listGet w k = _
    rw [if_neg (by omega)]
  | succ i ih =>
    intro w hi k
    have hlen : (w.set (i + 1) (listGet w i)).length = w.length := List.length_set w _ _
    have hi' : i < (w.set (i + 1) (listGet w i)).length := by omega
    show listGet (slideWindowLoop (w.set (i + 1) (listGet w i)) i) k = _
    rw [ih _ hi' k]
    by_cases h1 : 1 ≤ k ∧ k ≤ i
    · rw [if_pos h1, if_pos (show 1 ≤ k ∧ k ≤ i + 1 by omega), listGet_set,
        if_neg (by omega)]
    · by_cases h2 : k = i + 1
      · subst h2
        rw [if_neg h1, if_pos (show 1 ≤ i + 1 ∧ i + 1 ≤ i + 1 by omega), listGet_set,
          if_pos ⟨rfl, by omega⟩]
        simp only [Nat.add_sub_cancel]
      · rw [if_neg h1, if_neg (by omega), listGet_set, if_neg (by omega)]

/-- Helper: a prefix of length k of a list, written out slot by slot. -/
theorem take_eq_map_range :
    ∀ (l : List Int) (k : Nat), k ≤ l.length →
      l.take k = (List.range k).map (fun j => listGet l j) := by
  intro l
  induction l with
  | nil =>
    intro k hk
    have : k = 0 := by simpa using hk
    subst this
    simp
  | cons a t ih =>
    intro k hk
    cases k with
    | zero => simp
    | succ k' =>
      have htail := ih k' (by simpa using hk)
      simp only [List.take, List.range_succ_eq_map, List.map_cons, List.map_map]
      rw [htail]
      refine congrArg (fun x => a :: x) ?_
      refine List.map_congr_left ?_
      intro j _
      rfl

/-- Helper: dropping the head shifts slot access by one. -/
theorem listGet_drop_one (l : List Int) (j : Nat) :
    listGet (l.drop 1) j = listGet l (j + 1) := by
  cases l with
  | nil => rfl
  | cons a t => rfl

/-- C9: getIngestionRateForLastNMinutes returns the sum of window slots 1
through 6n (excluding the open bucket at slot 0) divided by n, and slideWindow
shifts every slot one position toward higher indices (dropping the last slot)
and zeroes slot 0. -/
theorem ingestionRate_and_slideWindow_spec (w : List Int) (n : Int)
    (hw : w.length = 61) (hn : 1 ≤ n) (hcap : 6 * n + 1 ≤ 61) :
    getIngestionRateForLastNMinutes w n
        = Int.tdiv (((List.range (6 * n).toNat).map (fun i => listGet w (i + 1))).sum) n
      ∧ (slideWindow w).length = 61
      ∧ listGet (slideWindow w) 0 = 0
      ∧ (∀ i, i < 60 → listGet (slideWindow w) (i + 1) = listGet w i) := by
  have htoNat : (6 * n + 1).toNat = (6 * n).toNat + 1 := by omega
  have hm : (6 * n).toNat + 1 ≤ w.length := by omega
  refine ⟨?_, ?_, ?_, ?_⟩
  · show Int.tdiv ((w.take (6 * n + 1).toNat).drop 1).sum n = _
    rw [htoNat]
    have hdt : (w.take ((6 * n).toNat + 1)).drop 1 = (w.drop 1).take (6 * n).toNat := by
      rw [List.drop_take]
      simp
    rw [hdt, take_eq_map_range (w.drop 1) (6 * n).toNat (by rw [List.length_drop]; omega)]
    refine congrArg (fun x : List Int => Int.tdiv x.sum n) ?_
    refine List.map_congr_left ?_
    intro j _
    rw [listGet_drop_one]
  · show ((slideWindowLoop w (w.length - 1)).set 0 0).length = 61
    rw [List.length_set, length_slideWindowLoop, hw]
  · show listGet ((slideWindowLoop w (w.length - 1)).set 0 0) 0 = 0
    rw [listGet_set, if_pos ⟨rfl, by rw [length_slideWindowLoop]; omega⟩]
  · intro i hi
    show listGet ((slideWindowLoop w (w.length - 1)).set 0 0) (i + 1) = listGet w i
    rw [listGet_set, if_neg (by omega), hw]
    rw [listGet_slideWindowLoop 60 w (by omega) (i + 1), if_pos (by omega)]
    congr 1

/-- Witness for C9 on a concrete 61-slot window and n = 1. -/
theorem ingestionRate_and_slideWindow_spec_witness :
    (List.replicate 61 (2 : Int)).length = 61 ∧
      getIngestionRateForLastNMinutes (List.replicate 61 (2 : Int)) 1
          = Int.tdiv (((List.range (6 * (1 : Int)).toNat).map
              (fun i => listGet (List.replicate 61 (2 : Int)) (i + 1))).sum) 1
        ∧ (slideWindow (List.replicate 61 (2 : Int))).length = 61
        ∧ listGet (slideWindow (List.replicate 61 (2 : Int))) 0 = 0
        ∧ (∀ i, i < 60 → listGet (slideWindow (List.replicate 61 (2 : Int))) (i + 1)
            = listGet (List.replicate 61 (2 : Int)) i) :=
  ⟨by simp,
    ingestionRate_and_slideWindow_spec (List.replicate 61 (2 : Int)) 1 (by simp)
      (by decide) (by decide)⟩

/-- Helper: the three lists classifyTasks accumulates are exactly the input
tasks filtered by their file-import state, in input order. -/
theorem classifyTasksAux_filters (st : String → String → Option FileImportState) :
    ∀ (tasks ip ns c : List ImportFileTask),
      classifyTasksAux st tasks = some (ip, ns, c) →
      ip = tasks.filter
          (fun t => decide (st t.filePath t.tableName = some FileImportState.inProgress))
      ∧ ns = tasks.filter
          (fun t => decide (st t.filePath t.tableName = some FileImportState.notStarted))
      ∧ c = tasks.filter
          (fun t => decide (st t.filePath t.tableName = some FileImportState.completed)) := by
  intro tasks
  induction tasks with
  | nil =>
    intro ip ns c h
    simp only [classifyTasksAux, Option.some.injEq, Prod.mk.injEq] at h
    obtain ⟨h1, h2, h3⟩ := h
    subst h1; subst h2; subst h3
    simp
  | cons t rest ihr =>
    intro ip ns c h
    cases hst : st t.filePath t.tableName with
    | none =>
      simp only [classifyTasksAux] at h
      rw [hst] at h
      cases h
    | some s =>
      cases haux : classifyTasksAux st rest with
      | none =>
        simp only [classifyTasksAux] at h
        rw [hst, haux] at h
        cases h
      | some triple =>
        obtain ⟨ip', ns', c'⟩ := triple
        obtain ⟨f1, f2, f3⟩ := ihr ip' ns' c' haux
        simp only [classifyTasksAux] at h
        rw [hst, haux] at h
        cases s with
        | inProgress =>
          obtain ⟨h1, h2, h3⟩ : t :: ip' = ip ∧ ns' = ns ∧ c' = c := by simpa using h
          subst h1; subst h2; subst h3
          refine ⟨?_, ?_, ?_⟩ <;> rw [List.filter_cons] <;> simp [hst, f1, f2, f3]
        | notStarted =>
          obtain ⟨h1, h2, h3⟩ : ip' = ip ∧ t :: ns' = ns ∧ c' = c := by simpa using h
          subst h1; subst h2; subst h3
          refine ⟨?_, ?_, ?_⟩ <;> rw [List.filter_cons] <;> simp [hst, f1, f2, f3]
        | completed =>
          obtain ⟨h1, h2, h3⟩ : ip' = ip ∧ ns' = ns ∧ t :: c' = c := by simpa using h
          subst h1; subst h2; subst h3
          refine ⟨?_, ?_, ?_⟩ <;> rw [List.filter_cons] <;> simp [hst, f1, f2, f3]

/-- Helper: when classifyTasks succeeds, the three accumulated lists together
are a permutation of the input task list. -/
theorem classifyTasksAux_perm (st : String → String → Option FileImportState) :
    ∀ (tasks ip ns c : List ImportFileTask),
      classifyTasksAux st tasks = some (ip, ns, c) → (ip ++ ns ++ c).Perm tasks := by
  intro tasks
  induction tasks with
  | nil =>
    intro ip ns c h
    simp only [classifyTasksAux, Option.some.injEq, Prod.mk.injEq] at h
    obtain ⟨h1, h2, h3⟩ := h
    subst h1; subst h2; subst h3
    simp
  | cons t rest ihr =>
    intro ip ns c h
    cases hst : st t.filePath t.tableName with
    | none =>
      simp only [classifyTasksAux] at h
      rw [hst] at h
      cases h
    | some s =>
      cases haux : classifyTasksAux st rest with
      | none =>
        simp only [classifyTasksAux] at h
        rw [hst, haux] at h
        cases h
      | some triple =>
        obtain ⟨ip', ns', c'⟩ := triple
        have hperm := ihr ip' ns' c' haux
        simp only [classifyTasksAux] at h
        rw [hst, haux] at h
        cases s with
        | inProgress =>
          obtain ⟨h1, h2, h3⟩ : t :: ip' = ip ∧ ns' = ns ∧ c' = c := by simpa using h
          subst h1; subst h2; subst h3
          simpa using hperm.cons t
        | notStarted =>
          obtain ⟨h1, h2, h3⟩ : ip' = ip ∧ t :: ns' = ns ∧ c' = c := by simpa using h
          subst h1; subst h2; subst h3
          refine List.Perm.trans ?_ (hperm.cons t)
          exact (List.perm_middle).append_right c'
        | completed =>
          obtain ⟨h1, h2, h3⟩ : ip' = ip ∧ ns' = ns ∧ t :: c' = c := by simpa using h
          subst h1; subst h2; subst h3
          exact List.Perm.trans List.perm_middle (hperm.cons t)

/-- C10: when classifyTasks returns without error it partitions its input —
pending is the IN_PROGRESS tasks followed by the NOT_STARTED tasks (each in
input order, so every IN_PROGRESS task precedes every NOT_STARTED task),
completed is exactly the COMPLETED tasks, and pending ++ completed is a
permutation of the input (every task appears exactly once across the two). -/
theorem classifyTasks_partition (st : String → String → Option FileImportState)
    (tasks pending completed : List ImportFileTask)
    (h : classifyTasks st tasks = some (pending, completed)) :
    pending = tasks.filter
        (fun t => decide (st t.filePath t.tableName = some FileImportState.inProgress))
      ++ tasks.filter
        (fun t => decide (st t.filePath t.tableName = some FileImportState.notStarted))
    ∧ completed = tasks.filter
        (fun t => decide (st t.filePath t.tableName = some FileImportState.completed))
    ∧ (pending ++ completed).Perm tasks := by
  cases haux : classifyTasksAux st tasks with
  | none =>
    simp only [classifyTasks] at h
    rw [haux] at h
    cases h
  | some triple =>
    obtain ⟨ip, ns, c⟩ := triple
    simp only [classifyTasks] at h
    rw [haux] at h
    obtain ⟨h1, h2⟩ : ip ++ ns = pending ∧ c = completed := by simpa using h
    obtain ⟨f1, f2, f3⟩ := classifyTasksAux_filters st tasks ip ns c haux
    have hperm := classifyTasksAux_perm st tasks ip ns c haux
    subst h1; subst h2
    exact ⟨by rw [← f1, ← f2], f3, hperm⟩

/-- Witness for C10 on three concrete tasks in states COMPLETED, IN_PROGRESS
and NOT_STARTED. -/
theorem classifyTasks_partition_witness :
    classifyTasks
        (fun p _ => if p = "a" then some FileImportState.completed
          else if p = "b" then some FileImportState.inProgress
          else some FileImportState.notStarted)
        [{ id := 1, filePath := "a", tableName := "t" },
         { id := 2, filePath := "b", tableName := "t" },
         { id := 3, filePath := "c", tableName := "t" }]
      = some ([{ id := 2, filePath := "b", tableName := "t" },
               { id := 3, filePath := "c", tableName := "t" }],
              [{ id := 1, filePath := "a", tableName := "t" }])
    ∧ List.Perm
        (([{ id := 2, filePath := "b", tableName := "t" },
           { id := 3, filePath := "c", tableName := "t" }] : List ImportFileTask)
          ++ [{ id := 1, filePath := "a", tableName := "t" }])
        [{ id := 1, filePath := "a", tableName := "t" },
         { id := 2, filePath := "b", tableName := "t" },
         { id := 3, filePath := "c", tableName := "t" }] := by
  have h : classifyTasks
        (fun p _ => if p = "a" then some FileImportState.completed
          else if p = "b" then some FileImportState.inProgress
          else some FileImportState.notStarted)
        [{ id := 1, filePath := "a", tableName := "t" },
         { id := 2, filePath := "b", tableName := "t" },
         { id := 3, filePath := "c", tableName := "t" }]
      = some ([{ id := 2, filePath := "b", tableName := "t" },
               { id := 3, filePath := "c", tableName := "t" }],
              [{ id := 1, filePath := "a", tableName := "t" }]) := by decide
  exact ⟨h, (classifyTasks_partition _ _ _ _ h).2.2⟩

end YBV
